import Mathlib

/-!
Verification of the adafruit_motorkit stepper/DC motor engine.

Shallow embedding of `src/stepper.rs`, `src/dc.rs` and `src/lib.rs`.

Conventions of the embedding:
* Rust `i32` arithmetic is modelled on `ℤ` with Rust's truncating division
  and remainder (`Int.tdiv` / `Int.tmod`).  `i32` overflow is not modelled
  (the step counter starts at `i32::MAX / 2` precisely so that it stays far
  from the bounds in practice).
* A Rust panic (remainder by zero, out-of-bounds index after an
  `as usize` cast of a negative value) is modelled by `Option.none`.
* PWM channels are modelled by their PCA9685 channel number (`ℕ`); a bus
  write is a constructor of `PwmWrite`.  Bus failures are not modelled:
  the claims under study are about the values written, not about transport
  errors.
* The `f32` quarter-sine computation of the current curve is modelled over
  `ℝ` with the exact `Real.sin`.
-/

/-- Step direction, `StepDirection` from `src/stepper.rs`. -/
inductive StepDirection
  | Forward
  | Backward
deriving DecidableEq

/-- Step style, `StepStyle` from `src/stepper.rs`. -/
inductive StepStyle
  | Single
  | Double
  | Interleave
  | Microstep
deriving DecidableEq

/-- Motor identifiers, `Motor` from `src/lib.rs`. -/
inductive Motor
  | Motor1
  | Motor2
  | Motor3
  | Motor4
  | Stepper1
  | Stepper2
deriving DecidableEq

/-- Error type `MotorError` from `src/lib.rs` (the `InvalidMotorError` variant is the
one referenced by `DcMotor::try_new` in `src/dc.rs`). -/
inductive MotorError
  | I2cError
  | PwmError
  | ChannelError
  | ThrottleError
  | InvalidMotorError
deriving DecidableEq

/-- Channel assignment `StepChannels` from `src/stepper.rs`; channels are PCA9685 channel
numbers. -/
structure StepChannels where
  ref_channel1 : ℕ
  ref_channel2 : ℕ
  ain1 : ℕ
  ain2 : ℕ
  bin1 : ℕ
  bin2 : ℕ
deriving DecidableEq

/-- The `Motor::Stepper1` entry of `STEP_CHANNEL_MAP` in `src/stepper.rs`
(channels `C8, C13, C10, C9, C11, C12`). -/
def stepper1_channels : StepChannels :=
  { ref_channel1 := 8, ref_channel2 := 13, ain1 := 10, ain2 := 9,
    bin1 := 11, bin2 := 12 }

/-- The `Motor::Stepper2` entry of `STEP_CHANNEL_MAP` in `src/stepper.rs`
(channels `C2, C7, C4, C3, C5, C6`). -/
def stepper2_channels : StepChannels :=
  { ref_channel1 := 2, ref_channel2 := 7, ain1 := 4, ain2 := 3,
    bin1 := 5, bin2 := 6 }

/-- Embedding of `STEP_CHANNEL_MAP` from `src/stepper.rs`: only the two stepper motors
have an entry. -/
def STEP_CHANNEL_MAP : Motor → Option StepChannels
  | Motor.Stepper1 => some stepper1_channels
  | Motor.Stepper2 => some stepper2_channels
  | _ => none

/-- Embedding of `StepperMotor::calc_step_size` from `src/stepper.rs` (lines 205-236).
Takes the `microsteps` resolution and the current step counter; returns
the counter after the possible alignment mutation together with the
returned step size.  `none` models the Rust panic when `half_step = 0`
(remainder by zero at `self.current_step % half_step`). -/
def calc_step_size (microsteps current_step : ℤ) (step_dir : StepDirection)
    (step_style : StepStyle) : Option (ℤ × ℤ) :=
  if step_style = StepStyle.Microstep then some (current_step, 1)
  else
    let half_step := microsteps.tdiv 2
    if half_step = 0 then none
    else
      let additional_microsteps := current_step.tmod half_step
      if additional_microsteps ≠ 0 then
        match step_dir with
        | StepDirection.Forward =>
            some (current_step + (half_step - additional_microsteps), 0)
        | StepDirection.Backward =>
            some (current_step - additional_microsteps, 0)
      else if step_style = StepStyle.Interleave then
        some (current_step, half_step)
      else
        let curr_interleave := current_step.tdiv half_step
        if (step_style = StepStyle.Single ∧ curr_interleave.tmod 2 = 1)
            ∨ (step_style = StepStyle.Double ∧ curr_interleave.tmod 2 = 0) then
          some (current_step, half_step)
        else
          some (current_step, microsteps)

/-- Embedding of `StepperMotor::calc_duty_cycle` from `src/stepper.rs` (lines 186-203).
`none` models the Rust panics: division/remainder by zero when
`microsteps = 0`, the always-out-of-bounds `self.microsteps as usize`
index when `microsteps < 0` (the curve is empty then and the cast wraps),
and the out-of-bounds indices produced by `as usize` casts of negative
`trailing_coil` / `microstep` values. -/
def calc_duty_cycle (microsteps current_step : ℤ) (curve : List ℤ)
    (step_style : StepStyle) : Option (List ℤ) :=
  if microsteps ≤ 0 then none
  else
    let tc := (current_step.tdiv microsteps).tmod 4
    let ms := current_step.tmod microsteps
    if tc < 0 ∨ ms < 0 then none
    else
      let trailing_coil := tc.toNat
      let leading_coil := (trailing_coil + 1) % 4
      match curve.get? ms.toNat, curve.get? (microsteps.toNat - ms.toNat) with
      | some lead_duty, some trail_duty =>
          let duty_cycles :=
            ((List.replicate 4 (0 : ℤ)).set leading_coil lead_duty).set
              trailing_coil trail_duty
          if step_style ≠ StepStyle.Microstep
              ∧ duty_cycles.getD leading_coil 0
                  = duty_cycles.getD trailing_coil 0
              ∧ duty_cycles.getD leading_coil 0 > 0 then
            some ((duty_cycles.set leading_coil 4095).set trailing_coil 4095)
          else
            some duty_cycles
      | _, _ => none

/-- Embedding of `StepperMotor::calc_step` from `src/stepper.rs` (lines 155-167):
run `calc_step_size`, apply the step size to the counter in the requested
direction, then resolve the duty cycles.  Returns the new counter together
with the resolved duty vector. -/
def calc_step (microsteps current_step : ℤ) (step_dir : StepDirection)
    (step_style : StepStyle) (curve : List ℤ) : Option (ℤ × List ℤ) :=
  match calc_step_size microsteps current_step step_dir step_style with
  | none => none
  | some (s1, step_size) =>
      let s2 :=
        match step_dir with
        | StepDirection.Forward => s1 + step_size
        | StepDirection.Backward => s1 - step_size
      match calc_duty_cycle microsteps s2 curve step_style with
      | none => none
      | some d => some (s2, d)

/-- The counter-update part of `calc_step` (lines 160-164 of
`src/stepper.rs`): the counter after the alignment mutation plus the
applied displacement. -/
def step_counter_update (microsteps current_step : ℤ)
    (step_dir : StepDirection) (step_style : StepStyle) : Option ℤ :=
  (calc_step_size microsteps current_step step_dir step_style).map
    (fun p =>
      match step_dir with
      | StepDirection.Forward => p.1 + p.2
      | StepDirection.Backward => p.1 - p.2)

/-- The channels written `fully off` by `StepperMotor::stop`
(`src/stepper.rs` lines 136-153), in source order.  The source writes
`ref_channel1` twice and never writes `ref_channel2`. -/
def stop_writes (c : StepChannels) : List ℕ :=
  [c.ref_channel1, c.ref_channel1, c.ain1, c.ain2, c.bin1, c.bin2]

/-- The step-size policy exactly as the specification (§4.3) words it,
for comparison with `calc_step_size`: `mod` and `/` are read with floor
semantics (`Int.fmod` / `Int.fdiv`) and the parity of `current_interleave`
is the mathematical parity (`Odd` / `Even`).  On non-negative counters
this coincides with the source's truncating arithmetic. -/
def spec_step_size (microsteps current_step : ℤ) (step_dir : StepDirection)
    (step_style : StepStyle) : ℤ × ℤ :=
  if step_style = StepStyle.Microstep then (current_step, 1)
  else
    let half := microsteps.fdiv 2
    let remainder := current_step.fmod half
    if remainder ≠ 0 then
      match step_dir with
      | StepDirection.Forward => (current_step + (half - remainder), 0)
      | StepDirection.Backward => (current_step - remainder, 0)
    else if step_style = StepStyle.Interleave then
      (current_step, half)
    else
      let current_interleave := current_step.fdiv half
      if (step_style = StepStyle.Single ∧ Odd current_interleave)
          ∨ (step_style = StepStyle.Double ∧ Even current_interleave) then
        (current_step, half)
      else
        (current_step, microsteps)

/-- The coil phase resolver exactly as the specification (§4.2) words it,
for comparison with `calc_duty_cycle`: `trailing_coil` and `microstep`
are derived with floor semantics (`Int.fdiv` / `Int.fmod`), so they are
non-negative indices for every step counter, including negative ones. -/
def spec_duty_cycle (microsteps current_step : ℤ) (curve : List ℤ)
    (step_style : StepStyle) : Option (List ℤ) :=
  let trailing_coil := ((current_step.fdiv microsteps).fmod 4).toNat
  let leading_coil := (trailing_coil + 1) % 4
  let microstep := (current_step.fmod microsteps).toNat
  match curve.get? microstep, curve.get? (microsteps.toNat - microstep) with
  | some lead_duty, some trail_duty =>
      let duty :=
        ((List.replicate 4 (0 : ℤ)).set leading_coil lead_duty).set
          trailing_coil trail_duty
      if step_style ≠ StepStyle.Microstep
          ∧ duty.getD leading_coil 0 = duty.getD trailing_coil 0
          ∧ duty.getD leading_coil 0 > 0 then
        some ((duty.set leading_coil 4095).set trailing_coil 4095)
      else
        some duty
  | _, _ => none

/-- One entry of the current curve built by `StepperMotor::try_new`
(`src/stepper.rs` lines 80-89):
`(((65535.0 * sin(PI / (2.0 * microsteps) * i)).round() as i32 + 1) >> 4)
.min(4095)`.  The `f32` computation is modelled exactly over `ℝ`; the
arithmetic right shift by 4 of the (non-negative) intermediate value is
integer division by 16. -/
noncomputable def curveVal (microsteps i : ℕ) : ℤ :=
  min ((round ((65535 : ℝ)
    * Real.sin (Real.pi / (2 * microsteps) * i)) + 1) / 16) 4095

/-- The current curve of `StepperMotor::try_new`: one `curveVal` per index
of `0..microsteps + 1`. -/
noncomputable def curve (microsteps : ℕ) : List ℤ :=
  (List.range (microsteps + 1)).map (curveVal microsteps)

/-- The curve as built for an `i32` resolution: for a negative resolution
the Rust range `0..microsteps + 1` is empty. -/
noncomputable def curveOfInt (microsteps : ℤ) : List ℤ :=
  (List.range (microsteps + 1).toNat).map (curveVal microsteps.toNat)

/-- The value `i32::MAX / 2`, the initial step counter of `StepperMotor::try_new`. -/
def init_step : ℤ := 1073741823

/-- State of a `StepperMotor` from `src/stepper.rs`. -/
structure StepperMotor where
  microsteps : ℤ
  channels : StepChannels
  curve : List ℤ
  current_step : ℤ

/-- Embedding of `StepperMotor::try_new` from `src/stepper.rs` (lines 73-119), with the
PWM writes (which cannot fail in this model) elided: the channel lookup
uses `.unwrap()`, so an absent entry is a panic (`none`), not a
`MotorError`; the resolution is taken as given — `try_new` never
validates it. -/
noncomputable def stepper_try_new (step_motor : Motor)
    (microsteps : Option ℤ) : Option StepperMotor :=
  match STEP_CHANNEL_MAP step_motor with
  | none => none
  | some channels =>
      let m := microsteps.getD 16
      some { microsteps := m, channels := channels, curve := curveOfInt m,
             current_step := init_step }

/-- Channel assignment `DcChannels` from `src/dc.rs`. -/
structure DcChannels where
  ref_channel : ℕ
  forward_channel : ℕ
  backward_channel : ℕ
deriving DecidableEq

/-- The `Motor::Motor1` entry of `DC_CHANNEL_MAP` in `src/dc.rs`
(channels `C8, C9, C10`). -/
def motor1_dc_channels : DcChannels :=
  { ref_channel := 8, forward_channel := 9, backward_channel := 10 }

/-- A bus write issued through the PWM collaborator. -/
inductive PwmWrite
  | set_channel_off (channel duty : ℕ)
  | set_channel_full_off (channel : ℕ)
deriving DecidableEq

/-- An `f32` value as far as the throttle logic observes it: `NaN`
(every comparison is false) or a finite value, which is always a rational
number.  Infinities behave in `set_throttle` like any other out-of-range
value and are not distinguished here. -/
inductive F32
  | nan
  | val (q : ℚ)
deriving DecidableEq

/-- IEEE `>` against a rational constant: false on NaN. -/
def F32.gtc : F32 → ℚ → Bool
  | F32.nan, _ => false
  | F32.val q, c => q > c

/-- IEEE `<` against a rational constant: false on NaN. -/
def F32.ltc : F32 → ℚ → Bool
  | F32.nan, _ => false
  | F32.val q, c => q < c

/-- Membership of an `f32` value in the interval `[-1, 1]`; NaN is outside
every interval. -/
def F32.in_unit_range : F32 → Bool
  | F32.nan => false
  | F32.val q => -1 ≤ q && q ≤ 1

/-- Embedding of `DcMotor::set_throttle` from `src/dc.rs` (lines 90-117): the list of
bus writes performed and the returned error, if any.  The range check
precedes every write.  `(4095.0 * throttle.abs()) as u16` is `0` for NaN
(a float-to-int cast of NaN saturates to 0); for a finite throttle the
`f32` rounding of the product is immaterial to the claims and the product
is taken exactly, truncated toward zero by the cast.
`throttle.partial_cmp(&0.0)` is `None` exactly for NaN, which therefore
falls into the final (full-off) branch together with `0.0`. -/
def dc_set_throttle (c : DcChannels) (throttle : F32) :
    List PwmWrite × Option MotorError :=
  if throttle.gtc 1 || throttle.ltc (-1) then
    ([], some MotorError.ThrottleError)
  else
    match throttle with
    | F32.val q =>
        let duty : ℕ := (4095 * |q|).floor.toNat
        if q > 0 then
          ([PwmWrite.set_channel_off c.forward_channel duty], none)
        else if q < 0 then
          ([PwmWrite.set_channel_off c.backward_channel duty], none)
        else
          ([PwmWrite.set_channel_full_off c.forward_channel,
            PwmWrite.set_channel_full_off c.backward_channel], none)
    | F32.nan =>
        ([PwmWrite.set_channel_full_off c.forward_channel,
          PwmWrite.set_channel_full_off c.backward_channel], none)


/-! ## Properties of the current curve -/

lemma round_le_round {x y : ℝ} (h : x ≤ y) : round x ≤ round y := by
  rw [round_eq, round_eq]
  exact Int.floor_le_floor (by linarith)

lemma round_nonneg {x : ℝ} (h : 0 ≤ x) : 0 ≤ round x := by
  rw [round_eq]
  exact Int.floor_nonneg.mpr (by linarith)

lemma curve_length (m : ℕ) : (curve m).length = m + 1 := by
  simp [curve]

lemma curve_get {m i : ℕ} (h : i ≤ m) :
    (curve m).get? i = some (curveVal m i) := by
  rw [curve, List.get?_map, List.get?_range (by omega)]
  rfl

lemma curve_getD {m i : ℕ} (h : i ≤ m) :
    (curve m).getD i 0 = curveVal m i := by
  rw [List.getD_eq_get?, curve_get h, Option.getD_some]

lemma curveVal_angle_nonneg (m i : ℕ) :
    0 ≤ Real.pi / (2 * m) * i := by
  have hπ := Real.pi_pos
  positivity

lemma curveVal_angle_le {m i : ℕ} (hm : 0 < m) (h : i ≤ m) :
    Real.pi / (2 * m) * i ≤ Real.pi / 2 := by
  have hπ := Real.pi_pos
  have hm' : (0 : ℝ) < m := by exact_mod_cast hm
  rw [div_mul_eq_mul_div, div_le_div_iff (by linarith) (by norm_num)]
  have hi : (i : ℝ) ≤ m := by exact_mod_cast h
  nlinarith

lemma curveVal_zero (m : ℕ) : curveVal m 0 = 0 := by
  unfold curveVal
  norm_num

lemma curveVal_last {m : ℕ} (hm : 0 < m) : curveVal m m = 4095 := by
  unfold curveVal
  have hm' : (m : ℝ) ≠ 0 := by exact_mod_cast hm.ne'
  have hangle : Real.pi / (2 * m) * m = Real.pi / 2 := by
    field_simp
    ring
  rw [hangle, Real.sin_pi_div_two, mul_one]
  have h65535 : round ((65535 : ℝ)) = 65535 := by
    rw [show ((65535 : ℝ)) = ((65535 : ℤ) : ℝ) by norm_num, round_intCast]
  rw [h65535]
  decide

lemma curveVal_nonneg {m i : ℕ} (h : i ≤ m) : 0 ≤ curveVal m i := by
  unfold curveVal
  rcases Nat.eq_zero_or_pos m with hm | hm
  · subst hm
    interval_cases i
    norm_num
  · have hsin : 0 ≤ Real.sin (Real.pi / (2 * m) * i) :=
      Real.sin_nonneg_of_nonneg_of_le_pi (curveVal_angle_nonneg m i)
        (le_trans (curveVal_angle_le hm h)
          (by linarith [Real.pi_pos]))
    have hr : 0 ≤ round ((65535 : ℝ) * Real.sin (Real.pi / (2 * m) * i)) :=
      round_nonneg (by positivity)
    exact le_min (Int.ediv_nonneg (by omega) (by norm_num)) (by norm_num)

lemma curveVal_le (m i : ℕ) : curveVal m i ≤ 4095 := min_le_right _ _

lemma curveVal_mono {m i j : ℕ} (hm : 0 < m) (hij : i ≤ j) (hj : j ≤ m) :
    curveVal m i ≤ curveVal m j := by
  unfold curveVal
  have hπ := Real.pi_pos
  have hcoeff : 0 ≤ Real.pi / (2 * m) := by positivity
  have hangle : Real.pi / (2 * m) * i ≤ Real.pi / (2 * m) * j := by
    have : (i : ℝ) ≤ j := by exact_mod_cast hij
    nlinarith
  have hmem1 : Real.pi / (2 * m) * i ∈
      Set.Icc (-(Real.pi / 2)) (Real.pi / 2) :=
    ⟨le_trans (by linarith) (curveVal_angle_nonneg m i),
     curveVal_angle_le hm (le_trans hij hj)⟩
  have hmem2 : Real.pi / (2 * m) * j ∈
      Set.Icc (-(Real.pi / 2)) (Real.pi / 2) :=
    ⟨le_trans (by linarith) (curveVal_angle_nonneg m j),
     curveVal_angle_le hm hj⟩
  have hsin := Real.strictMonoOn_sin.monotoneOn hmem1 hmem2 hangle
  have hmul : (65535 : ℝ) * Real.sin (Real.pi / (2 * m) * i)
      ≤ (65535 : ℝ) * Real.sin (Real.pi / (2 * m) * j) := by nlinarith
  have hround := round_le_round hmul
  exact min_le_min (Int.ediv_le_ediv (by norm_num) (by omega)) le_rfl

lemma curve_mem_bounds (m : ℕ) :
    ∀ x ∈ curve m, 0 ≤ x ∧ x ≤ 4095 := by
  intro x hx
  rw [curve, List.mem_map] at hx
  obtain ⟨i, hi, rfl⟩ := hx
  rw [List.mem_range] at hi
  exact ⟨curveVal_nonneg (by omega), curveVal_le m i⟩

/-- C3: for every resolution `> 0` the current curve built by
`StepperMotor::try_new` has length `resolution + 1`, is non-decreasing,
every value lies in `[0, 4095]`, its first entry is `0` and its last
entry (index `resolution`) is `4095`. -/
theorem c3_curve_wellformed (m : ℕ) (hm : 0 < m) :
    (curve m).length = m + 1 ∧
    (∀ i j, i ≤ j → j ≤ m → (curve m).getD i 0 ≤ (curve m).getD j 0) ∧
    (∀ x ∈ curve m, 0 ≤ x ∧ x ≤ 4095) ∧
    (curve m).getD 0 0 = 0 ∧
    (curve m).getD m 0 = 4095 := by
  refine ⟨curve_length m, ?_, curve_mem_bounds m, ?_, ?_⟩
  · intro i j hij hj
    rw [curve_getD (le_trans hij hj), curve_getD hj]
    exact curveVal_mono hm hij hj
  · rw [curve_getD (Nat.zero_le m), curveVal_zero]
  · rw [curve_getD le_rfl, curveVal_last hm]

/-! ## C1: the step-size policy -/

/-- C1 counterexample: at resolution 16, step counter `-8`, direction
Forward, style Single, the source computes a displacement of 16 (its
truncating `curr_interleave % 2 == 1` test is false at
`curr_interleave = -1`), while the claim's reading (`current_interleave`
is odd) gives the half-step displacement 8. -/
theorem c1_counterexample :
    calc_step_size 16 (-8) StepDirection.Forward StepStyle.Single
      ≠ some (spec_step_size 16 (-8) StepDirection.Forward
        StepStyle.Single) := by
  decide

/-- C1 amended: for every resolution `≥ 2` and every non-negative step
counter, `calc_step_size` computes the alignment correction and the
displacement exactly as the claim specifies (at resolution 1 the source
panics with a remainder by zero, and for negative counters its truncating
parity test diverges from the odd/even reading). -/
theorem c1_step_size_amended (m s : ℤ) (dir : StepDirection)
    (style : StepStyle) (hm : 2 ≤ m) (hs : 0 ≤ s) :
    calc_step_size m s dir style = some (spec_step_size m s dir style) := by
  have htd : m.tdiv 2 = m / 2 := Int.tdiv_eq_ediv (by omega) (by norm_num)
  have hfd : m.fdiv 2 = m / 2 := Int.fdiv_eq_ediv m (by norm_num)
  have hhalf : 1 ≤ m / 2 := by omega
  have hsm : s.tmod (m / 2) = s % (m / 2) := Int.tmod_eq_emod hs (by omega)
  have hsf : s.fmod (m / 2) = s % (m / 2) := Int.fmod_eq_emod s (by omega)
  have hsd : s.tdiv (m / 2) = s / (m / 2) := Int.tdiv_eq_ediv hs (by omega)
  have hsdf : s.fdiv (m / 2) = s / (m / 2) := Int.fdiv_eq_ediv s (by omega)
  have hq : 0 ≤ s / (m / 2) := Int.ediv_nonneg hs (by omega)
  have hqt : (s / (m / 2)).tmod 2 = s / (m / 2) % 2 :=
    Int.tmod_eq_emod hq (by norm_num)
  by_cases hmicro : style = StepStyle.Microstep
  · simp [calc_step_size, spec_step_size, hmicro]
  · simp only [calc_step_size, spec_step_size, if_neg hmicro, htd, hfd,
      hsm, hsf, hsd, hsdf, hqt, Int.odd_iff, Int.even_iff,
      if_neg (by omega : ¬ m / 2 = 0)]
    by_cases hrem : s % (m / 2) = 0
    · simp only [hrem, ne_eq, not_true_eq_false, if_false]
      by_cases hint : style = StepStyle.Interleave
      · simp [hint]
      · simp only [if_neg hint]
        split_ifs <;> rfl
    · simp only [ne_eq, hrem, not_false_eq_true, if_true]
      cases dir <;> rfl

/-- Witness for C1 amended at resolution 16, counter 0, Forward, Single. -/
theorem c1_step_size_amended_witness :
    (2 : ℤ) ≤ 16 ∧ (0 : ℤ) ≤ 0 ∧
    calc_step_size 16 0 StepDirection.Forward StepStyle.Single
      = some (spec_step_size 16 0 StepDirection.Forward StepStyle.Single) :=
  ⟨by norm_num, le_rfl,
    c1_step_size_amended 16 0 StepDirection.Forward StepStyle.Single
      (by norm_num) le_rfl⟩

/-! ## C2: the coil phase resolver -/

/-- C2 counterexample: at resolution 16 and step counter `-1` the source
panics (its truncating `microstep = -1` is cast by `as usize` to an
out-of-bounds index), so it does not produce the floor-semantics duty
values the claim specifies. -/
theorem c2_counterexample :
    calc_duty_cycle 16 (-1) ((List.range 17).map (fun i => (i : ℤ)))
        StepStyle.Single
      ≠ spec_duty_cycle 16 (-1) ((List.range 17).map (fun i => (i : ℤ)))
        StepStyle.Single := by
  decide

/-- C2 amended: for every resolution `> 0` and every non-negative step
counter, `calc_duty_cycle` produces exactly the four duty values the
claim specifies — `trailing_coil = (step_counter / resolution) mod 4`,
`leading_coil = (trailing_coil + 1) mod 4`,
`microstep = step_counter mod resolution`,
`duty[leading_coil] = curve[microstep]`,
`duty[trailing_coil] = curve[resolution - microstep]`, all other entries
0, with the collapse-to-4095 rule — the code's truncating semantics
agreeing there with the claim's floor semantics.  For negative counters
the source panics instead of producing valid coil indices. -/
theorem c2_duty_cycle_amended (m s : ℤ) (curve : List ℤ)
    (style : StepStyle) (hm : 0 < m) (hs : 0 ≤ s) :
    calc_duty_cycle m s curve style = spec_duty_cycle m s curve style := by
  have hd : s.tdiv m = s / m := Int.tdiv_eq_ediv hs (by omega)
  have hdf : s.fdiv m = s / m := Int.fdiv_eq_ediv s (by omega)
  have hq : 0 ≤ s / m := Int.ediv_nonneg hs (by omega)
  have hqt : (s / m).tmod 4 = s / m % 4 := Int.tmod_eq_emod hq (by norm_num)
  have hqf : (s / m).fmod 4 = s / m % 4 := Int.fmod_eq_emod _ (by norm_num)
  have hmt : s.tmod m = s % m := Int.tmod_eq_emod hs (by omega)
  have hmf : s.fmod m = s % m := Int.fmod_eq_emod s (by omega)
  have h4 : 0 ≤ s / m % 4 := Int.emod_nonneg _ (by norm_num)
  have hm0 : 0 ≤ s % m := Int.emod_nonneg _ (by omega)
  simp only [calc_duty_cycle, spec_duty_cycle, hd, hdf, hqt, hqf, hmt, hmf,
    if_neg (by omega : ¬ m ≤ 0),
    if_neg (by omega : ¬ (s / m % 4 < 0 ∨ s % m < 0))]

/-- Witness for C2 amended at resolution 2, counter 0. -/
theorem c2_duty_cycle_amended_witness :
    (0 : ℤ) < 2 ∧ (0 : ℤ) ≤ 0 ∧
    calc_duty_cycle 2 0 [0, 5, 9] StepStyle.Single
      = spec_duty_cycle 2 0 [0, 5, 9] StepStyle.Single :=
  ⟨by norm_num, le_rfl,
    c2_duty_cycle_amended 2 0 [0, 5, 9] StepStyle.Single (by norm_num)
      le_rfl⟩

/-! ## Concrete duty-cycle evaluations over the built curve -/

lemma curve16_get_zero : (curve 16).get? 0 = some 0 := by
  rw [curve_get (by norm_num), curveVal_zero]

lemma curve16_get_last : (curve 16).get? 16 = some 4095 := by
  rw [curve_get le_rfl, curveVal_last (by norm_num)]

lemma calc_duty_16_32 :
    calc_duty_cycle 16 32 (curve 16) StepStyle.Single
      = some [0, 0, 4095, 0] := by
  simp only [calc_duty_cycle,
    show ((32 : ℤ).tdiv 16).tmod 4 = 2 by decide,
    show (32 : ℤ).tmod 16 = 0 by decide,
    show ((2 : ℤ)).toNat = 2 from rfl,
    show ((0 : ℤ)).toNat = 0 from rfl,
    show ((16 : ℤ)).toNat = 16 from rfl,
    Nat.sub_zero,
    if_neg (by decide : ¬ (16 : ℤ) ≤ 0),
    if_neg (by decide : ¬ ((2 : ℤ) < 0 ∨ (0 : ℤ) < 0))]
  rw [curve16_get_zero, curve16_get_last]
  decide

lemma calc_duty_16_16 :
    calc_duty_cycle 16 16 (curve 16) StepStyle.Single
      = some [0, 4095, 0, 0] := by
  simp only [calc_duty_cycle,
    show ((16 : ℤ).tdiv 16).tmod 4 = 1 by decide,
    show (16 : ℤ).tmod 16 = 0 by decide,
    show ((1 : ℤ)).toNat = 1 from rfl,
    show ((0 : ℤ)).toNat = 0 from rfl,
    show ((16 : ℤ)).toNat = 16 from rfl,
    Nat.sub_zero,
    if_neg (by decide : ¬ (16 : ℤ) ≤ 0),
    if_neg (by decide : ¬ ((1 : ℤ) < 0 ∨ (0 : ℤ) < 0))]
  rw [curve16_get_zero, curve16_get_last]
  decide

lemma calc_duty_16_0 :
    calc_duty_cycle 16 0 (curve 16) StepStyle.Double
      = some [4095, 0, 0, 0] := by
  simp only [calc_duty_cycle,
    show ((0 : ℤ).tdiv 16).tmod 4 = 0 by decide,
    show (0 : ℤ).tmod 16 = 0 by decide,
    show ((0 : ℤ)).toNat = 0 from rfl,
    show ((16 : ℤ)).toNat = 16 from rfl,
    Nat.sub_zero,
    if_neg (by decide : ¬ (16 : ℤ) ≤ 0),
    if_neg (by decide : ¬ ((0 : ℤ) < 0 ∨ (0 : ℤ) < 0))]
  rw [curve16_get_zero, curve16_get_last]
  decide

lemma calc_duty_16_8_isSome :
    ∃ d, calc_duty_cycle 16 8 (curve 16) StepStyle.Double = some d := by
  simp only [calc_duty_cycle,
    show ((8 : ℤ).tdiv 16).tmod 4 = 0 by decide,
    show (8 : ℤ).tmod 16 = 8 by decide,
    show ((8 : ℤ)).toNat = 8 from rfl,
    show ((0 : ℤ)).toNat = 0 from rfl,
    show ((16 : ℤ)).toNat = 16 from rfl,
    show (16 - 8 : ℕ) = 8 from rfl,
    if_neg (by decide : ¬ (16 : ℤ) ≤ 0),
    if_neg (by decide : ¬ ((0 : ℤ) < 0 ∨ (8 : ℤ) < 0))]
  rw [curve_get (by norm_num : (8 : ℕ) ≤ 16)]
  generalize curveVal 16 8 = c
  dsimp only
  split_ifs <;> exact ⟨_, rfl⟩

lemma calc_duty_16_neg8 (style : StepStyle) :
    calc_duty_cycle 16 (-8) (curve 16) style = none := by
  simp only [calc_duty_cycle,
    show ((-8 : ℤ).tdiv 16).tmod 4 = 0 by decide,
    show (-8 : ℤ).tmod 16 = -8 by decide,
    if_neg (by decide : ¬ (16 : ℤ) ≤ 0),
    if_pos (by decide : ((0 : ℤ) < 0 ∨ (-8 : ℤ) < 0))]

/-! ## C4: the two-nonzero-coils invariant -/

/-- C4 counterexample: at resolution 16 and step counter 32 (a
quarter-phase boundary) the engine emits `[0, 0, 4095, 0]` — exactly one
non-zero duty value, which is neither the claimed two-nonzero shape, nor
the collapsed case, nor the all-zero rest state. -/
theorem c4_counterexample :
    calc_duty_cycle 16 32 (curve 16) StepStyle.Single
      = some [0, 0, 4095, 0] ∧
    ¬ (List.countP (fun x : ℤ => x != 0) [0, 0, 4095, 0] = 2
        ∨ List.countP (fun x : ℤ => x != 0) [0, 0, 4095, 0] = 0) :=
  ⟨calc_duty_16_32, by decide⟩

/-- C4 amended: every duty vector the resolver emits has non-zero entries
only at the trailing and leading coil of the current phase — hence at
most two non-zero entries.  At a quarter-phase boundary the leading
curve value is `curve[0] = 0`, so only the trailing coil is non-zero;
the all-zero rest state and the collapsed case (both `4095`) complete
the possible shapes. -/
theorem c4_duty_nonzero_amended (m s : ℤ) (curve : List ℤ)
    (style : StepStyle) (d : List ℤ) (hm : 0 < m) (hs : 0 ≤ s)
    (hd : calc_duty_cycle m s curve style = some d) :
    d.length = 4 ∧
    (∀ i, i < 4 → d.getD i 0 ≠ 0 →
      i = ((s.tdiv m).tmod 4).toNat
        ∨ i = (((s.tdiv m).tmod 4).toNat + 1) % 4) ∧
    List.countP (fun x : ℤ => x != 0) d ≤ 2 := by
  have hq : 0 ≤ s.tdiv m := by
    rw [Int.tdiv_eq_ediv hs (by omega)]
    exact Int.ediv_nonneg hs (by omega)
  have hTlt : ((s.tdiv m).tmod 4).toNat < 4 := by
    have h1 : (s.tdiv m).tmod 4 = s.tdiv m % 4 :=
      Int.tmod_eq_emod hq (by norm_num)
    have h2 : s.tdiv m % 4 < 4 := Int.emod_lt_of_pos _ (by norm_num)
    omega
  unfold calc_duty_cycle at hd
  rw [if_neg (by omega : ¬ m ≤ 0)] at hd
  dsimp only at hd
  split_ifs at hd with hneg
  split at hd
  next lead_duty trail_duty hget1 hget2 =>
    set T := ((s.tdiv m).tmod 4).toNat with hT
    clear hget1 hget2 hneg hq
    split_ifs at hd with hcollapse <;>
      rw [Option.some_inj] at hd <;>
      subst hd <;>
      clear hcollapse <;>
      clear hT <;>
      interval_cases T <;>
        refine ⟨by simp, ?_, ?_⟩ <;>
        first
          | (intro i hi hne
             interval_cases i <;> simp_all)
          | (norm_num [List.replicate_succ, List.replicate_zero,
               List.countP_cons]
             try split_ifs <;> simp_all)
  all_goals simp at hd

/-- Witness for C4 amended at resolution 2, counter 0. -/
theorem c4_duty_nonzero_amended_witness :
    (0 : ℤ) < 2 ∧ (0 : ℤ) ≤ 0 ∧
    calc_duty_cycle 2 0 [0, 5, 9] StepStyle.Single = some [9, 0, 0, 0] ∧
    ([9, 0, 0, 0] : List ℤ).length = 4 ∧
    (∀ i, i < 4 → ([9, 0, 0, 0] : List ℤ).getD i 0 ≠ 0 →
      i = (((0 : ℤ).tdiv 2).tmod 4).toNat
        ∨ i = ((((0 : ℤ).tdiv 2).tmod 4).toNat + 1) % 4) ∧
    List.countP (fun x : ℤ => x != 0) [9, 0, 0, 0] ≤ 2 := by
  refine ⟨by norm_num, le_rfl, by decide, ?_⟩
  exact c4_duty_nonzero_amended 2 0 [0, 5, 9] StepStyle.Single [9, 0, 0, 0]
    (by norm_num) le_rfl (by decide)

/-! ## C5: the concrete resolution-16 scenario -/

/-- C5 counterexample: from step counter 0 with resolution 16, the first
Forward/Single call takes a full step of 16 (not 0 or 8), after which the
trailing coil is 1 — not 0 — and the emitted duty vector is
`[0, 4095, 0, 0]`, not the claimed `[curve[16], curve[0], 0, 0] =
[4095, 0, 0, 0]`. -/
theorem c5_counterexample :
    calc_step 16 0 StepDirection.Forward StepStyle.Single (curve 16)
      ≠ some (16, [4095, 0, 0, 0]) ∧
    (((16 : ℤ).tdiv 16).tmod 4).toNat ≠ 0 := by
  constructor
  · rw [show calc_step 16 0 StepDirection.Forward StepStyle.Single
        (curve 16) = some (16, [0, 4095, 0, 0]) from ?_]
    · decide
    · unfold calc_step
      rw [show calc_step_size 16 0 StepDirection.Forward StepStyle.Single
          = some (0, 16) by decide]
      simp only [show (0 : ℤ) + 16 = 16 by norm_num, calc_duty_16_16]
  · decide

/-- C5 amended: with resolution 16, starting counter 0, style Single,
direction Forward, the first call needs no alignment correction
(`0 mod 8 = 0`) and applies a full-step displacement of 16 (interleave
count 0 is even); the resolver then yields `trailing_coil = 1`,
`leading_coil = 2`, `microstep = 0`, and the duty vector
`[0, curve[16], 0, 0] = [0, 4095, 0, 0]`. -/
theorem c5_scenario_amended :
    calc_step_size 16 0 StepDirection.Forward StepStyle.Single
      = some (0, 16) ∧
    calc_step 16 0 StepDirection.Forward StepStyle.Single (curve 16)
      = some (16, [0, 4095, 0, 0]) ∧
    (((16 : ℤ).tdiv 16).tmod 4).toNat = 1 ∧
    ((16 : ℤ).tmod 16).toNat = 0 := by
  refine ⟨by decide, ?_, by decide, by decide⟩
  unfold calc_step
  rw [show calc_step_size 16 0 StepDirection.Forward StepStyle.Single
      = some (0, 16) by decide]
  simp only [show (0 : ℤ) + 16 = 16 by norm_num, calc_duty_16_16]

/-! ## C6: the channels de-energized by stop -/

/-- C6: `StepperMotor::stop` never writes `ref_channel2` fully off — it
writes `ref_channel1` twice instead (a copy-paste slip at lines 140-143
of `src/stepper.rs`), so only five of the six claimed channels are
de-energized, for both stepper motors. -/
theorem c6_stop_misses_ref_channel2 :
    stepper1_channels.ref_channel2 ∉ stop_writes stepper1_channels ∧
    stepper2_channels.ref_channel2 ∉ stop_writes stepper2_channels ∧
    stop_writes stepper1_channels
      = [stepper1_channels.ref_channel1, stepper1_channels.ref_channel1,
         stepper1_channels.ain1, stepper1_channels.ain2,
         stepper1_channels.bin1, stepper1_channels.bin2] := by
  decide

/-! ## C7: construction-time error handling -/

/-- C7: `StepperMotor::try_new` does not return a typed configuration
error: for a motor without a stepper channel assignment (e.g.
`Motor::Motor1`) it panics through `.unwrap()` (modelled as `none`), and
it accepts any resolution `≤ 0` without error (the division-by-zero panic
is deferred to the first step). -/
theorem c7_try_new_no_config_error :
    stepper_try_new Motor.Motor1 (some 16) = none ∧
    (stepper_try_new Motor.Stepper1 (some 0)).isSome = true ∧
    (stepper_try_new Motor.Stepper1 (some (-3))).isSome = true :=
  ⟨rfl, rfl, rfl⟩

/-! ## C8: the DC throttle range check -/

/-- C8 counterexample: `NaN` lies outside the valid domain `[-1, 1]`, yet
`set_throttle` does not return `ThrottleError` for it — both IEEE
comparisons of the range check are false on NaN, so NaN falls through to
the incomparable branch, which fully de-energizes both channels. -/
theorem c8_counterexample :
    F32.in_unit_range F32.nan = false ∧
    dc_set_throttle motor1_dc_channels F32.nan
      = ([PwmWrite.set_channel_full_off 9, PwmWrite.set_channel_full_off 10],
         none) := by
  decide

/-- C8 amended: `set_throttle` returns `ThrottleError` — performing no
channel write — if and only if the throttle compares greater than `1.0`
or less than `-1.0` under IEEE semantics.  Every throttle inside
`[-1, 1]` is accepted; `NaN`, although outside the domain, is also
accepted (it is handled by the zero/incomparable branch). -/
theorem c8_throttle_amended (c : DcChannels) (t : F32) :
    ((dc_set_throttle c t).2 = some MotorError.ThrottleError
      ↔ (t.gtc 1 || t.ltc (-1)) = true) ∧
    ((dc_set_throttle c t).2.isSome → (dc_set_throttle c t).1 = []) := by
  cases t with
  | nan => simp [dc_set_throttle, F32.gtc, F32.ltc]
  | val q =>
      by_cases h : ((F32.val q).gtc 1 || (F32.val q).ltc (-1)) = true
      · unfold dc_set_throttle
        rw [if_pos h]
        simp [h]
      · unfold dc_set_throttle
        rw [if_neg h]
        have h2 : ¬(1 < q ∨ q < -1) := by
          simpa [F32.gtc, F32.ltc] using h
        dsimp only
        split_ifs <;> simp_all

/-! ## C9: Forward/Backward round-trip symmetry -/

/-- C9 counterexample: from the aligned counter 0 with resolution 16 and
style Double, the Forward step is a half step to counter 8 (interleave
count 0 is even), but the Backward step from 8 is a full step of 16,
landing on counter `-8`, where the resolver panics — the duty vector
(originally `[4095, 0, 0, 0]`) is not restored. -/
theorem c9_counterexample :
    ((calc_step 16 0 StepDirection.Forward StepStyle.Double
        (curve 16)).bind
      (fun p => calc_step 16 p.1 StepDirection.Backward StepStyle.Double
        (curve 16))) = none ∧
    calc_duty_cycle 16 0 (curve 16) StepStyle.Double
      = some [4095, 0, 0, 0] := by
  constructor
  · obtain ⟨d, hd⟩ := calc_duty_16_8_isSome
    have h1 : calc_step 16 0 StepDirection.Forward StepStyle.Double
        (curve 16) = some (8, d) := by
      unfold calc_step
      rw [show calc_step_size 16 0 StepDirection.Forward StepStyle.Double
          = some (0, 8) by decide]
      simp only [show (0 : ℤ) + 8 = 8 by norm_num, hd]
    rw [h1]
    show calc_step 16 8 StepDirection.Backward StepStyle.Double (curve 16)
      = none
    unfold calc_step
    rw [show calc_step_size 16 8 StepDirection.Backward StepStyle.Double
        = some (8, 16) by decide]
    simp only [show (8 : ℤ) - 16 = -8 by norm_num, calc_duty_16_neg8]
  · exact calc_duty_16_0

/-- C9 amended: the Forward-then-Backward pair of the same style restores
the step counter — and with it the resolved duty vector — for Microstep
(from any counter), and from an aligned counter for Interleave and for
the full-step cases of Single (even interleave count) and Double (odd
interleave count) at an even resolution `≥ 2`.  In the remaining cases
(Single with odd interleave count, Double with even) the Forward
displacement is a half step but the Backward displacement is a full
step, so the pair nets `-half` and the duty vector is generally not
restored. -/
theorem c9_roundtrip_amended (m s : ℤ) (curve : List ℤ)
    (style : StepStyle)
    (h : style = StepStyle.Microstep ∨
      (2 ≤ m ∧ 0 ≤ s ∧ s.tmod (m.tdiv 2) = 0 ∧
        (style = StepStyle.Interleave ∨
          (m.tmod 2 = 0 ∧
            ((style = StepStyle.Single
                ∧ (s.tdiv (m.tdiv 2)).tmod 2 = 0)
              ∨ (style = StepStyle.Double
                ∧ (s.tdiv (m.tdiv 2)).tmod 2 = 1)))))) :
    ∃ s1, step_counter_update m s StepDirection.Forward style = some s1 ∧
      calc_step m s1 StepDirection.Backward style curve
        = (calc_duty_cycle m s curve style).map (fun d => (s, d)) := by
  rcases h with hmicro | ⟨hm2, hs, halign, hrest⟩
  · subst hmicro
    refine ⟨s + 1, ?_, ?_⟩
    · simp [step_counter_update, calc_step_size]
    · unfold calc_step
      rw [show calc_step_size m (s + 1) StepDirection.Backward
          StepStyle.Microstep = some (s + 1, 1) from rfl]
      dsimp only
      rw [show s + 1 - 1 = s by ring]
      cases hdc : calc_duty_cycle m s curve StepStyle.Microstep <;>
        simp [hdc]
  · have hhalf : m.tdiv 2 = m / 2 :=
      Int.tdiv_eq_ediv (by omega) (by norm_num)
    have hhpos : 1 ≤ m / 2 := by omega
    have hhne : ¬ (m / 2 = 0) := by omega
    have hmodS : s.tmod (m / 2) = s % (m / 2) :=
      Int.tmod_eq_emod hs (by omega)
    have halign' : s % (m / 2) = 0 := by
      rw [hhalf, hmodS] at halign
      exact halign
    rcases hrest with hint | ⟨heven, hsd⟩
    · subst hint
      have hszF : calc_step_size m s StepDirection.Forward
          StepStyle.Interleave = some (s, m / 2) := by
        simp [calc_step_size, hhalf, hmodS, halign', hhne]
      have halignB : (s + m / 2).tmod (m / 2) = 0 := by
        rw [Int.tmod_eq_emod (by omega) (by omega),
          show s + m / 2 = s + 1 * (m / 2) by ring,
          Int.add_mul_emod_self, halign']
      have hszB : calc_step_size m (s + m / 2) StepDirection.Backward
          StepStyle.Interleave = some (s + m / 2, m / 2) := by
        simp [calc_step_size, hhalf, halignB, hhne]
      refine ⟨s + m / 2, ?_, ?_⟩
      · simp [step_counter_update, hszF]
      · unfold calc_step
        rw [hszB]
        dsimp only
        rw [show s + m / 2 - m / 2 = s by ring]
        cases hdc : calc_duty_cycle m s curve StepStyle.Interleave <;>
          simp [hdc]
    · have hmeq : m = 2 * (m / 2) := by
        have : m.tmod 2 = m % 2 := Int.tmod_eq_emod (by omega) (by norm_num)
        omega
      have hq0 : 0 ≤ s / (m / 2) := Int.ediv_nonneg hs (by omega)
      have hci : s.tdiv (m / 2) = s / (m / 2) :=
        Int.tdiv_eq_ediv hs (by omega)
      have hcit : (s / (m / 2)).tmod 2 = s / (m / 2) % 2 :=
        Int.tmod_eq_emod hq0 (by norm_num)
      have halignB : (s + m).tmod (m / 2) = 0 := by
        rw [Int.tmod_eq_emod (by omega) (by omega),
          show s + m = s + 2 * (m / 2) by omega,
          Int.add_mul_emod_self, halign']
      have hciB : (s + m).tdiv (m / 2) = s / (m / 2) + 2 := by
        rw [Int.tdiv_eq_ediv (by omega) (by omega),
          show s + m = s + 2 * (m / 2) by omega,
          Int.add_mul_ediv_right _ _ (by omega)]
      have hciBt : ((s + m).tdiv (m / 2)).tmod 2
          = s / (m / 2) % 2 := by
        rw [hciB, Int.tmod_eq_emod (by omega) (by norm_num)]
        omega
      rcases hsd with ⟨hsingle, hpar⟩ | ⟨hdouble, hpar⟩
      · subst hsingle
        rw [hhalf, hci, hcit] at hpar
        have hszF : calc_step_size m s StepDirection.Forward
            StepStyle.Single = some (s, m) := by
          simp [calc_step_size, hhalf, hmodS, halign', hhne, hci, hcit,
            hpar]
        have hszB : calc_step_size m (s + m) StepDirection.Backward
            StepStyle.Single = some (s + m, m) := by
          simp [calc_step_size, hhalf, halignB, hhne, hciBt, hpar]
        refine ⟨s + m, ?_, ?_⟩
        · simp [step_counter_update, hszF]
        · unfold calc_step
          rw [hszB]
          dsimp only
          rw [show s + m - m = s by ring]
          cases hdc : calc_duty_cycle m s curve StepStyle.Single <;>
            simp [hdc]
      · subst hdouble
        rw [hhalf, hci, hcit] at hpar
        have hszF : calc_step_size m s StepDirection.Forward
            StepStyle.Double = some (s, m) := by
          simp [calc_step_size, hhalf, hmodS, halign', hhne, hci, hcit,
            hpar]
        have hszB : calc_step_size m (s + m) StepDirection.Backward
            StepStyle.Double = some (s + m, m) := by
          simp [calc_step_size, hhalf, halignB, hhne, hciBt, hpar]
        refine ⟨s + m, ?_, ?_⟩
        · simp [step_counter_update, hszF]
        · unfold calc_step
          rw [hszB]
          dsimp only
          rw [show s + m - m = s by ring]
          cases hdc : calc_duty_cycle m s curve StepStyle.Double <;>
            simp [hdc]

/-- Witness for C9 amended: Microstep round trip at resolution 2,
counter 0. -/
theorem c9_roundtrip_amended_witness :
    (StepStyle.Microstep = StepStyle.Microstep ∨
      (2 ≤ (2 : ℤ) ∧ (0 : ℤ) ≤ 0 ∧ (0 : ℤ).tmod ((2 : ℤ).tdiv 2) = 0 ∧
        (StepStyle.Microstep = StepStyle.Interleave ∨
          ((2 : ℤ).tmod 2 = 0 ∧
            ((StepStyle.Microstep = StepStyle.Single
                ∧ ((0 : ℤ).tdiv ((2 : ℤ).tdiv 2)).tmod 2 = 0)
              ∨ (StepStyle.Microstep = StepStyle.Double
                ∧ ((0 : ℤ).tdiv ((2 : ℤ).tdiv 2)).tmod 2 = 1)))))) ∧
    (∃ s1, step_counter_update 2 0 StepDirection.Forward
        StepStyle.Microstep = some s1 ∧
      calc_step 2 s1 StepDirection.Backward StepStyle.Microstep [0, 5, 9]
        = (calc_duty_cycle 2 0 [0, 5, 9] StepStyle.Microstep).map
            (fun d => (0, d))) :=
  ⟨Or.inl rfl,
    c9_roundtrip_amended 2 0 [0, 5, 9] StepStyle.Microstep (Or.inl rfl)⟩

/-! ## C10: index safety of the resolver -/

lemma mem_duty_bounds {a b : ℤ} {L T : ℕ}
    (ha : 0 ≤ a ∧ a ≤ 4095) (hb : 0 ≤ b ∧ b ≤ 4095) :
    ∀ x ∈ ((List.replicate 4 (0 : ℤ)).set L a).set T b,
      0 ≤ x ∧ x ≤ 4095 := by
  intro x hx
  rcases List.mem_or_eq_of_mem_set hx with hx | rfl
  · rcases List.mem_or_eq_of_mem_set hx with hx | rfl
    · rw [List.eq_of_mem_replicate hx]
      norm_num
    · exact ha
  · exact hb

/-- C10: for every resolution `> 0` (with the curve of length
`resolution + 1` built at construction) and every non-negative step
counter, the resolver's index computations stay in bounds —
`microstep ∈ [0, resolution]`, both coil indices in `[0, 3]` — the curve
lookups succeed, and every emitted duty value lies in `[0, 4095]` (so the
`as u16` cast in `update_coils` is lossless); at the negative counter
`-1` the index computations go out of range and the resolver fails. -/
theorem c10_index_safety (m : ℕ) (style : StepStyle) (hm : 0 < m) :
    (∀ s : ℤ, 0 ≤ s →
      0 ≤ s.tmod (m : ℤ) ∧ s.tmod (m : ℤ) ≤ (m : ℤ) ∧
      0 ≤ (s.tdiv (m : ℤ)).tmod 4 ∧ (s.tdiv (m : ℤ)).tmod 4 < 4 ∧
      ∃ d, calc_duty_cycle (m : ℤ) s (curve m) style = some d ∧
        d.length = 4 ∧ ∀ x ∈ d, 0 ≤ x ∧ x ≤ 4095) ∧
    calc_duty_cycle (m : ℤ) (-1) (curve m) style = none := by
  have hmZ : (0 : ℤ) < m := by exact_mod_cast hm
  constructor
  · intro s hs
    have hmt : s.tmod (m : ℤ) = s % m := Int.tmod_eq_emod hs (by omega)
    have hms0 : 0 ≤ s % (m : ℤ) := Int.emod_nonneg _ (by omega)
    have hmslt : s % (m : ℤ) < m := Int.emod_lt_of_pos _ hmZ
    have hqd : s.tdiv (m : ℤ) = s / m := Int.tdiv_eq_ediv hs (by omega)
    have hq0 : 0 ≤ s / (m : ℤ) := Int.ediv_nonneg hs (by omega)
    have hqt : (s / (m : ℤ)).tmod 4 = s / (m : ℤ) % 4 :=
      Int.tmod_eq_emod hq0 (by norm_num)
    have h40 : 0 ≤ s / (m : ℤ) % 4 := Int.emod_nonneg _ (by norm_num)
    have h44 : s / (m : ℤ) % 4 < 4 := Int.emod_lt_of_pos _ (by norm_num)
    have hqt2 : (s.tdiv (m : ℤ)).tmod 4 = s / (m : ℤ) % 4 := by
      rw [hqd]
      exact hqt
    refine ⟨by omega, by omega, by omega, by omega, ?_⟩
    have hget1 : (curve m).get? ((s.tmod (m : ℤ)).toNat)
        = some (curveVal m ((s.tmod (m : ℤ)).toNat)) :=
      curve_get (by omega)
    have hget2 : (curve m).get? (((m : ℤ)).toNat - (s.tmod (m : ℤ)).toNat)
        = some (curveVal m (((m : ℤ)).toNat - (s.tmod (m : ℤ)).toNat)) :=
      curve_get (by omega)
    have hb1 : 0 ≤ curveVal m ((s.tmod (m : ℤ)).toNat)
        ∧ curveVal m ((s.tmod (m : ℤ)).toNat) ≤ 4095 :=
      ⟨curveVal_nonneg (by omega), curveVal_le _ _⟩
    have hb2 : 0 ≤ curveVal m (((m : ℤ)).toNat - (s.tmod (m : ℤ)).toNat)
        ∧ curveVal m (((m : ℤ)).toNat - (s.tmod (m : ℤ)).toNat) ≤ 4095 :=
      ⟨curveVal_nonneg (by omega), curveVal_le _ _⟩
    unfold calc_duty_cycle
    rw [if_neg (by omega : ¬ (m : ℤ) ≤ 0)]
    dsimp only
    rw [if_neg (by omega : ¬ ((s.tdiv (m : ℤ)).tmod 4 < 0
      ∨ s.tmod (m : ℤ) < 0))]
    rw [hget1, hget2]
    dsimp only
    split_ifs with hc
    · refine ⟨_, rfl, by simp, ?_⟩
      intro x hx
      rcases List.mem_or_eq_of_mem_set hx with hx | rfl
      · rcases List.mem_or_eq_of_mem_set hx with hx | rfl
        · exact mem_duty_bounds hb1 hb2 x hx
        · norm_num
      · norm_num
    · exact ⟨_, rfl, by simp, mem_duty_bounds hb1 hb2⟩
  · have hguard : ((((-1 : ℤ)).tdiv (m : ℤ)).tmod 4 < 0
        ∨ ((-1 : ℤ)).tmod (m : ℤ) < 0) := by
      by_cases hm1 : m = 1
      · subst hm1
        left
        norm_num [Int.tdiv_one]
        decide
      · right
        have h1 : (1 : ℤ).tdiv m = 0 :=
          Int.tdiv_eq_zero_of_lt (by norm_num)
            (by exact_mod_cast (by omega : 1 < m))
        have h2 : ((-1 : ℤ)).tdiv m = 0 := by
          rw [show (-1 : ℤ) = -(1 : ℤ) from rfl, Int.neg_tdiv, h1, neg_zero]
        rw [Int.tmod_def, h2, mul_zero, sub_zero]
        norm_num
    unfold calc_duty_cycle
    rw [if_neg (by omega : ¬ (m : ℤ) ≤ 0)]
    dsimp only
    rw [if_pos hguard]

/-- Witness for C10 at the default resolution 16, style Single. -/
theorem c10_index_safety_witness :
    0 < 16 ∧
    ((∀ s : ℤ, 0 ≤ s →
      0 ≤ s.tmod (16 : ℤ) ∧ s.tmod (16 : ℤ) ≤ (16 : ℤ) ∧
      0 ≤ (s.tdiv (16 : ℤ)).tmod 4 ∧ (s.tdiv (16 : ℤ)).tmod 4 < 4 ∧
      ∃ d, calc_duty_cycle (16 : ℤ) s (curve 16) StepStyle.Single = some d ∧
        d.length = 4 ∧ ∀ x ∈ d, 0 ≤ x ∧ x ≤ 4095) ∧
    calc_duty_cycle (16 : ℤ) (-1) (curve 16) StepStyle.Single = none) := by
  constructor
  · decide
  · have h := c10_index_safety 16 StepStyle.Single (by decide)
    exact_mod_cast h

/-- Witness for C3 at the default resolution 16. -/
theorem c3_curve_wellformed_witness :
    0 < 16 ∧
    ((curve 16).length = 16 + 1 ∧
     (∀ i j, i ≤ j → j ≤ 16 → (curve 16).getD i 0 ≤ (curve 16).getD j 0) ∧
     (∀ x ∈ curve 16, 0 ≤ x ∧ x ≤ 4095) ∧
     (curve 16).getD 0 0 = 0 ∧
     (curve 16).getD 16 0 = 4095) :=
  ⟨by decide, c3_curve_wellformed 16 (by decide)⟩
